import Mathlib

/-!
Verification of the listening-history store of the spotify-backup repository
(`src/spotify_history.py`), as a shallow embedding in Lean.

The embedded state is the SQLite database created by the migrations at the top
of `spotify_history.py`:

* table `tracks(track_id TEXT PRIMARY KEY, data JSON)` — modeled as an
  association list from track id to an optional metadata blob (`none` models a
  NULL `data` column, i.e. a placeholder row);
* table `history(played_at INTEGER PRIMARY KEY, track_id TEXT NOT NULL
  REFERENCES tracks(track_id), ms_played INTEGER)` — modeled as a list of rows.

Timestamps are embedded as integers: the SQL `unixepoch(?)` conversion applied
on insert is modeled as identity on the already-converted epoch value, and the
`date(played_at, 'unixepoch')` conversion used by the top-tracks window is
modeled by the (strictly monotone, day-faithful) map `ts / 86400` on UTC day
numbers, so an SQL date window `[start, end]` becomes an integer day window.

The JSON metadata blob is modeled by the single field the verified operations
ever read from it, `json_extract(data, '$.duration_ms')`; `_cleanup_history_items`
only deletes keys (`available_markets`, `context`, `images`, `preview_url`,
`external_urls`, `href`) that are disjoint from this field, so it is the
identity on the modeled state.
-/

namespace SpotifyBackup

/-- The track metadata blob stored in `tracks.data`, restricted to the one
field the verified code reads: `duration_ms` (itself nullable, since
`json_extract` returns NULL when the field is absent). -/
structure TrackData where
  duration_ms : Option Int
deriving DecidableEq, Repr

/-- One row of the `history` table: `played_at INTEGER PRIMARY KEY`,
`track_id TEXT NOT NULL`, `ms_played INTEGER` (nullable). -/
structure HistoryRow where
  played_at : Int
  track_id : String
  ms_played : Option Int
deriving DecidableEq, Repr

/-- The database state: the `tracks` table (association list keyed by
`track_id`; the value `none` is a NULL `data` column / placeholder row) and
the `history` table. -/
structure DB where
  tracks : List (String × Option TrackData)
  history : List HistoryRow
deriving DecidableEq, Repr

deriving instance DecidableEq for Except

/-- Whether a `history` row with the given `played_at` primary key exists. -/
def hasPlayedAt (db : DB) (t : Int) : Bool :=
  db.history.any (fun r => r.played_at == t)

/-- Embeds `SpotifyHistoryDB._insert_history_item`:
`INSERT OR IGNORE INTO history VALUES (unixepoch(?), ?, ?)` returning the
cursor rowcount.  Under SQLite semantics with `PRAGMA foreign_keys = ON`:
a duplicate `played_at` primary key is silently ignored (rowcount 0), while a
missing parent `tracks` row is a foreign-key violation which `OR IGNORE` does
not suppress — it raises `sqlite3.IntegrityError`, modeled as `.error ()`. -/
def insert_history_item (db : DB) (played_at : Int) (track_id : String)
    (ms_played : Option Int) : Except Unit (DB × Nat) :=
  if hasPlayedAt db played_at then .ok (db, 0)
  else if (db.tracks.lookup track_id).isNone then .error ()
  else .ok ({ db with history := db.history ++ [⟨played_at, track_id, ms_played⟩] }, 1)

/-- Replace the value stored under the first occurrence of key `id`, or append
the pair when the key is absent (the effect of SQLite `INSERT OR REPLACE` on a
table whose primary key is the first component). -/
def upsertTrack : List (String × Option TrackData) → String → Option TrackData →
    List (String × Option TrackData)
  | [], id, v => [(id, v)]
  | (k, w) :: rest, id, v =>
    if k = id then (id, v) :: rest else (k, w) :: upsertTrack rest id v

/-- Embeds `SpotifyHistoryDB._insert_track`.  With `track = none` it runs
`INSERT OR IGNORE INTO tracks (track_id) VALUES (?)` — a placeholder insert
that is a no-op when the row already exists (so it never overwrites existing
`data` with NULL).  With `track = some t` it runs
`INSERT OR REPLACE INTO tracks VALUES (?, ?)`. -/
def insert_track (db : DB) (track_id : String) (track : Option TrackData) : DB :=
  match track with
  | none =>
    if (db.tracks.lookup track_id).isSome then db
    else { db with tracks := db.tracks ++ [(track_id, none)] }
  | some t => { db with tracks := upsertTrack db.tracks track_id (some t) }

/-- One row of the scan performed by `backfill_ms_played`: the
`SELECT h.played_at, t.track_id, json_extract(t.data, '$.duration_ms'),
ms_played FROM history h JOIN tracks t ... WHERE played_at >= ? ORDER BY
h.played_at` result shape. -/
structure ScanRow where
  played_at : Int
  track_id : String
  duration_ms : Option Int
  ms_played : Option Int
deriving DecidableEq, Repr

/-- Insert `x` in front of the first element it is `played_at`-below
(insertion step of a stable sort realizing `ORDER BY h.played_at`). -/
def orderedInsertByPlayedAt (x : ScanRow) : List ScanRow → List ScanRow
  | [] => [x]
  | y :: ys =>
    if x.played_at ≤ y.played_at then x :: y :: ys else y :: orderedInsertByPlayedAt x ys

/-- Stable sort by `played_at` ascending, realizing `ORDER BY h.played_at`. -/
def sortByPlayedAt : List ScanRow → List ScanRow
  | [] => []
  | x :: xs => orderedInsertByPlayedAt x (sortByPlayedAt xs)

/-- The rows scanned by `backfill_ms_played`: the `history`–`tracks` join
(every history row whose `track_id` has a `tracks` row; `duration_ms` is NULL
when `data` is NULL or lacks the field), restricted to
`played_at >= backfill_from` and ordered by `played_at` ascending. -/
def scanRows (db : DB) (backfill_from : Int) : List ScanRow :=
  sortByPlayedAt
    ((db.history.filter (fun r => backfill_from ≤ r.played_at)).filterMap
      (fun r =>
        (db.tracks.lookup r.track_id).map
          (fun d => ⟨r.played_at, r.track_id, d.bind (·.duration_ms), r.ms_played⟩)))

/-- Embeds the estimation loop of `backfill_ms_played` (the `for idx, row in
enumerate(data)` loop).  Rows with a non-null `ms_played` are skipped.  On the
last row the Python loop hits `IndexError` on `data[idx + 1]` and executes
`break` — deliberately leaving that row untouched.  Otherwise it computes
`full_play = row.played_at + row.duration_ms / 1000` (exact rational
arithmetic models the Python float expression, exact for these integer
inputs); when `row.duration_ms` is NULL this arithmetic raises `TypeError`,
modeled as `.error ()`.  If the next row starts strictly before `full_play`,
the row gets `(next.played_at - row.played_at) * 1000`, else its full
duration. -/
def backfillEstimate : List ScanRow → Except Unit (List ScanRow)
  | [] => .ok []
  | [r] => .ok [r]
  | r :: next :: rest =>
    if r.ms_played.isSome then
      match backfillEstimate (next :: rest) with
      | .error e => .error e
      | .ok out => .ok (r :: out)
    else
      match r.duration_ms with
      | none => .error ()
      | some d =>
        let ms : Int :=
          if (next.played_at : ℚ) < (r.played_at : ℚ) + (d : ℚ) / 1000
          then (next.played_at - r.played_at) * 1000
          else d
        match backfillEstimate (next :: rest) with
        | .error e => .error e
        | .ok out => .ok ({ r with ms_played := some ms } :: out)

/-- Embeds the final `executemany("UPDATE history SET ms_played=? WHERE
played_at=? AND ms_played IS NULL", ...)` of `backfill_ms_played`, executed
once per estimated row in order, together with the accumulated cursor
rowcount (SQLite counts every row matched by the WHERE clause as changed,
even when the assigned value equals the stored one). -/
def backfillUpdate (db : DB) (rows : List ScanRow) : DB × Nat :=
  rows.foldl
    (fun acc x =>
      let matched :=
        (acc.1.history.filter
          (fun r => r.played_at == x.played_at && r.ms_played == none)).length
      (⟨acc.1.tracks,
        acc.1.history.map
          (fun r =>
            if r.played_at == x.played_at && r.ms_played == none
            then { r with ms_played := x.ms_played } else r)⟩,
       acc.2 + matched))
    (db, 0)

/-- Embeds `SpotifyHistoryDB.backfill_ms_played`: scan, estimate, batched
guarded update; returns the updated database and the reported rowcount.  An
uncaught `TypeError` from the estimation loop propagates as `.error ()`
(before any UPDATE has been issued). -/
def backfill_ms_played (db : DB) (backfill_from : Int) : Except Unit (DB × Nat) :=
  match backfillEstimate (scanRows db backfill_from) with
  | .error e => .error e
  | .ok rows => .ok (backfillUpdate db rows)

/-- A live-feed track object (`item["track"]`), reduced to its id and modeled
metadata blob. -/
structure Track where
  id : String
  data : TrackData
deriving DecidableEq, Repr

/-- A live-feed play-history object: `item["played_at"]` (epoch value, see the
timestamp convention above) and the embedded full track object. -/
structure PlayHistoryObject where
  played_at : Int
  track : Track
deriving DecidableEq, Repr

/-- Embeds one iteration of the loop in
`SpotifyHistoryDB.insert_play_history_objects`: optimistic history insert;
on `sqlite3.IntegrityError` (missing `tracks` parent row) insert the full
track object and retry the history insert (the retry is not guarded, so a
second error would propagate). -/
def insertOneEvent (db : DB) (item : PlayHistoryObject) : Except Unit (DB × Nat) :=
  match insert_history_item db item.played_at item.track.id none with
  | .ok r => .ok r
  | .error _ =>
    insert_history_item (insert_track db item.track.id (some item.track.data))
      item.played_at item.track.id none

/-- The `for item in play_history_objects` loop of
`insert_play_history_objects`, accumulating `history_items_added`. -/
def insertPlayHistoryLoop (db : DB) : List PlayHistoryObject → Except Unit (DB × Nat)
  | [] => .ok (db, 0)
  | item :: rest =>
    match insertOneEvent db item with
    | .error e => .error e
    | .ok (db1, k) =>
      match insertPlayHistoryLoop db1 rest with
      | .error e => .error e
      | .ok (db2, n) => .ok (db2, k + n)

/-- Embeds `SpotifyHistoryDB.insert_play_history_objects(play_history_objects,
backfill_from=None)`.  `_cleanup_history_items` is the identity on the modeled
state (it only deletes metadata keys outside the model).  After the loop and
commit, `if backfill_from:` — Python truthiness, so `None` and `0` both skip
the backfill — `backfill_ms_played(backfill_from)` runs; the function returns
`history_items_added`. -/
def insert_play_history_objects (db : DB) (items : List PlayHistoryObject)
    (backfill_from : Option Int) : Except Unit (DB × Nat) :=
  match insertPlayHistoryLoop db items with
  | .error e => .error e
  | .ok (db1, n) =>
    match backfill_from with
    | none => .ok (db1, n)
    | some b =>
      if b = 0 then .ok (db1, n)
      else
        match backfill_ms_played db1 b with
        | .error e => .error e
        | .ok (db2, _) => .ok (db2, n)

/-- A raw record of the GDPR export JSON array, reduced to the three fields
`insert_from_gdpr_json` reads.  `none` models a missing field or JSON null
(`entry.get(x) is None`).  The `ts` field is embedded as the epoch value that
`unixepoch(?)` produces from the textual timestamp. -/
structure GdprEntry where
  ts : Option Int
  ms_played : Option Int
  spotify_track_uri : Option String
deriving DecidableEq, Repr

/-- The normalized triple `(played_at, track_id, ms_played)` added to the
`history` set by the parsing loop of `insert_from_gdpr_json`. -/
structure GdprTriple where
  played_at : Int
  track_id : String
  ms_played : Int
deriving DecidableEq, Repr

/-- Embeds `entry["spotify_track_uri"].split(":")[-1]` — the final
colon-delimited segment of the URI. -/
def gdprTrackId (uri : String) : String :=
  (uri.splitOn ":").getLastD ""

/-- Embeds the parsing loop of `insert_from_gdpr_json`: skip records with any
of `ts`, `ms_played`, `spotify_track_uri` missing, skip records with
`ms_played == 0`, and accumulate the normalized triples with set semantics
(`history.add(...)`; the set is modeled as a duplicate-free list in first-seen
order).  Skipped records are dropped silently. -/
def gdprNormalize (entries : List GdprEntry) : List GdprTriple :=
  entries.foldl
    (fun acc e =>
      match e.ts, e.ms_played, e.spotify_track_uri with
      | some ts, some ms, some uri =>
        if ms = 0 then acc
        else
          let t : GdprTriple := ⟨ts, gdprTrackId uri, ms⟩
          if t ∈ acc then acc else acc ++ [t]
      | _, _, _ => acc)
    []

/-- The batched placeholder insert of `insert_from_gdpr_json`:
`executemany("INSERT OR IGNORE INTO tracks (track_id) VALUES (?)", ...)` over
the normalized triples. -/
def gdprInsertPlaceholders (db : DB) (hist : List GdprTriple) : DB :=
  hist.foldl (fun d t => insert_track d t.track_id none) db

/-- The batched history insert of `insert_from_gdpr_json`:
`executemany("INSERT OR IGNORE INTO history VALUES (unixepoch(?), ?, ?)", history)`. -/
def gdprInsertHistory (db : DB) : List GdprTriple → Except Unit DB
  | [] => .ok db
  | t :: rest =>
    match insert_history_item db t.played_at t.track_id (some t.ms_played) with
    | .error e => .error e
    | .ok (db1, _) => gdprInsertHistory db1 rest

/-- The batched guarded update of `insert_from_gdpr_json`:
`executemany("UPDATE history SET ms_played=? WHERE played_at=unixepoch(?) and
ms_played IS NULL", ...)`. -/
def gdprUpdateMs (db : DB) (hist : List GdprTriple) : DB :=
  hist.foldl
    (fun d t =>
      { d with
        history :=
          d.history.map
            (fun r =>
              if r.played_at == t.played_at && r.ms_played == none
              then { r with ms_played := some t.ms_played } else r) })
    db

/-- Embeds `SpotifyHistoryDB.insert_from_gdpr_json` (with `backfill=False`;
`backfill_track_data` only calls the external API and fills track metadata,
which no claim below depends on): normalize the export records to a set of
triples, batch-insert track placeholders, batch-insert history rows, then
fill `ms_played` only where it is currently NULL. -/
def insert_from_gdpr_json (db : DB) (entries : List GdprEntry) : Except Unit DB :=
  let hist := gdprNormalize entries
  match gdprInsertHistory (gdprInsertPlaceholders db hist) hist with
  | .error e => .error e
  | .ok db2 => .ok (gdprUpdateMs db2 hist)

/-- A result row of `get_top_tracks`, reduced to the fields the verified
properties concern: the group key `t.track_id`, `MIN(h.played_at)` aliased
`played_first_at`, and `COUNT(h.track_id)` aliased `play_count`. -/
structure TopRow where
  track_id : String
  played_first_at : Int
  play_count : Nat
deriving DecidableEq, Repr

/-- The `date(h.played_at, 'unixepoch')` conversion, embedded as the UTC day
number of the timestamp (floor division, so it is correct for negative epochs
too). -/
def dayOf (ts : Int) : Int := ts.fdiv 86400

/-- The joined and windowed rows that `get_top_tracks` aggregates:
`FROM history h JOIN tracks t ON h.track_id = t.track_id WHERE
date(h.played_at,'unixepoch') BETWEEN date(?) AND date(?)`, with the window
bounds given as day numbers. -/
def topWindowRows (db : DB) (startDay endDay : Int) : List HistoryRow :=
  db.history.filter
    (fun r =>
      (db.tracks.lookup r.track_id).isSome
        && decide (startDay ≤ dayOf r.played_at) && decide (dayOf r.played_at ≤ endDay))

/-- The `GROUP BY t.track_id` output of `get_top_tracks`: one row per distinct
track id of the window, carrying `MIN(h.played_at)` and `COUNT(h.track_id)`. -/
def topGroups (db : DB) (startDay endDay : Int) : List TopRow :=
  let rows := topWindowRows db startDay endDay
  ((rows.map (·.track_id)).dedup).map
    (fun id =>
      ⟨id,
       (((rows.filter (fun r => r.track_id == id)).map (·.played_at)).min?).getD 0,
       (rows.filter (fun r => r.track_id == id)).length⟩)

/-- The `ORDER BY play_count DESC, played_at ASC` relation of `get_top_tracks`.
`played_at` in the ORDER BY is a bare column of the aggregate query; because
the query contains exactly one `min`/`max` aggregate (`MIN(h.played_at)`),
SQLite's bare-column rule makes it take the value from the minimizing row,
i.e. it equals `played_first_at`. -/
def topLe (a b : TopRow) : Prop :=
  b.play_count < a.play_count
    ∨ (a.play_count = b.play_count ∧ a.played_first_at ≤ b.played_first_at)

instance : DecidableRel topLe := fun a b => by unfold topLe; infer_instance

instance : IsTotal TopRow topLe where
  total a b := by
    unfold topLe
    rcases Nat.lt_trichotomy a.play_count b.play_count with h | h | h
    · exact Or.inr (Or.inl h)
    · rcases le_total a.played_first_at b.played_first_at with h2 | h2
      · exact Or.inl (Or.inr ⟨h, h2⟩)
      · exact Or.inr (Or.inr ⟨h.symm, h2⟩)
    · exact Or.inl (Or.inl h)

instance : IsTrans TopRow topLe where
  trans a b c hab hbc := by
    unfold topLe at *
    rcases hab with h1 | ⟨h1, h1b⟩ <;> rcases hbc with h2 | ⟨h2, h2b⟩
    · exact Or.inl (h2.trans h1)
    · exact Or.inl (h2 ▸ h1)
    · exact Or.inl (h1 ▸ h2)
    · exact Or.inr ⟨h1.trans h2, h1b.trans h2b⟩

/-- The SQL `LIMIT ?` clause: a negative limit means no upper bound on the
number of returned rows, while `LIMIT 0` returns no rows. -/
def applyLimit (limit : Int) (l : List TopRow) : List TopRow :=
  if limit < 0 then l else l.take limit.toNat

/-- Embeds `SpotifyHistoryDB.get_top_tracks(start, end, limit=-1)` with the
date window given as day numbers: group the windowed join by track, order by
play count descending then first-played ascending, apply the limit. -/
def get_top_tracks (db : DB) (startDay endDay : Int) (limit : Int) : List TopRow :=
  applyLimit limit (List.insertionSort topLe (topGroups db startDay endDay))

/-- Embeds `SpotifyHistoryDB.get_today_last_year(limit=-1)`:
`get_top_tracks(today_last_year, today_last_year, limit)`, with the computed
`date.today().replace(year=...-1)` passed in as a day number. -/
def get_today_last_year (db : DB) (todayLastYearDay : Int) (limit : Int) : List TopRow :=
  get_top_tracks db todayLastYearDay todayLastYearDay limit

/-- Embeds the `--limit` default of the `top-tracks` subcommand in `main`. -/
def top_tracks_limit_default : Int := 10

/-- Embeds the `--limit` default of the `today-last-year` subcommand in `main`. -/
def today_last_year_limit_default : Int := 10

/-- The connection/schema state seen by `_apply_migrations`: the committed
`PRAGMA user_version`, whether migration 2's `ALTER TABLE history ADD COLUMN
ms_played` has been applied, and the table contents.  (Rows of a database
that predates migration 2 carry `ms_played = none`, matching a column that
does not exist yet.) -/
structure MigrationState where
  version : Nat
  msPlayedColumn : Bool
  db : DB
deriving DecidableEq, Repr

/-- Embeds `SpotifyHistoryDB._apply_migrations` over the two entries of
`MIGRATIONS`, under the transaction semantics this code actually runs with
(Python `sqlite3` legacy autocommit, the default):

* `with self.con:` begins no transaction by itself; the module only opens an
  implicit transaction before INSERT/UPDATE/DELETE/REPLACE statements;
* `executescript` first commits any pending transaction and then runs the
  migration script outside any transaction, so the DDL of migration 1
  (CREATE TABLE) and migration 2 (ALTER TABLE) is committed immediately;
* `PRAGMA user_version = n` is not a DML statement, so it too runs in
  autocommit mode and is committed immediately;
* the post-migration function `backfill_ms_played` issues its own
  `self.con.commit()`; when it instead raises (its estimation loop raises
  `TypeError` before any UPDATE has been issued), the rollback performed by
  `with self.con:` on exit finds nothing pending, the already-committed
  schema change and version bump stand, and the exception propagates to the
  caller of `SpotifyHistoryDB.__init__` — modeled as `.error` carrying the
  committed state. -/
def apply_migrations (s : MigrationState) : Except MigrationState MigrationState :=
  let s1 := if s.version < 1 then { s with version := 1 } else s
  if s1.version < 2 then
    let s2 := { s1 with msPlayedColumn := true, version := 2 }
    match backfill_ms_played s2.db 0 with
    | .error _ => .error s2
    | .ok (db2, _) => .ok { s2 with db := db2 }
  else .ok s1

/-- The condition under which the parsing loop of `insert_from_gdpr_json`
turns the export record `e` into the normalized triple `t`. -/
def GdprMatches (e : GdprEntry) (t : GdprTriple) : Prop :=
  e.ts = some t.played_at ∧ e.ms_played = some t.ms_played ∧ t.ms_played ≠ 0 ∧
    ∃ uri, e.spotify_track_uri = some uri ∧ t.track_id = gdprTrackId uri

/-- Whether the scan contains a row that is not the last one, has missing
`ms_played`, and a NULL track duration — the exact situation in which the
estimation loop's arithmetic raises `TypeError`. -/
def hasBadRow : List ScanRow → Bool
  | [] => false
  | [_] => false
  | r :: next :: rest =>
    (r.ms_played == none && r.duration_ms == none) || hasBadRow (next :: rest)

/-- The no-orphan invariant: every `history` row references an existing
`tracks` row (the foreign-key guarantee). -/
def NoOrphans (db : DB) : Prop :=
  ∀ r ∈ db.history, (db.tracks.lookup r.track_id).isSome = true

/-- Every history row at timestamp `p` has a non-null `ms_played`. -/
def AllSomeAt (db : DB) (p : Int) : Prop :=
  ∀ r ∈ db.history, r.played_at = p → r.ms_played.isSome = true

/-! ### Basic lemmas about the table operations -/

theorem lookup_append_of_eq_some {l l2 : List (String × Option TrackData)} {k : String}
    {v : Option TrackData} (h : l.lookup k = some v) : (l ++ l2).lookup k = some v := by
  induction l with
  | nil => simp [List.lookup] at h
  | cons p rest ih =>
    rw [List.cons_append, List.lookup]
    rw [List.lookup] at h
    split at h
    · simpa using h
    · simp_all [ih h]

theorem lookup_append_of_eq_none {l l2 : List (String × Option TrackData)} {k : String}
    (h : l.lookup k = none) : (l ++ l2).lookup k = l2.lookup k := by
  induction l with
  | nil => simp
  | cons p rest ih =>
    rw [List.cons_append, List.lookup]
    rw [List.lookup] at h
    split at h
    · simp at h
    · simp_all [ih h]

theorem lookup_upsertTrack (l : List (String × Option TrackData)) (id k : String)
    (v : Option TrackData) :
    (upsertTrack l id v).lookup k = if k = id then some v else l.lookup k := by
  induction l with
  | nil =>
    by_cases hk : k = id
    · simp [upsertTrack, List.lookup_cons, hk]
    · have hb : (k == id) = false := beq_eq_false_iff_ne.mpr hk
      simp [upsertTrack, List.lookup_cons, hb, hk]
  | cons p rest ih =>
    obtain ⟨pk, pv⟩ := p
    rw [upsertTrack]
    by_cases hp : pk = id
    · rw [if_pos hp]
      by_cases hk : k = id
      · have hb : (k == id) = true := beq_iff_eq.mpr hk
        simp [List.lookup_cons, hb, hk]
      · have hb : (k == id) = false := beq_eq_false_iff_ne.mpr hk
        have hbp : (k == pk) = false := beq_eq_false_iff_ne.mpr (fun h => hk (h.trans hp))
        simp [List.lookup_cons, hb, hbp, hk]
    · rw [if_neg hp]
      by_cases hkp : k = pk
      · have hkid : ¬k = id := fun h => hp (hkp ▸ h)
        have hb : (k == pk) = true := beq_iff_eq.mpr hkp
        simp [List.lookup_cons, hb, hkid]
      · have hb : (k == pk) = false := beq_eq_false_iff_ne.mpr hkp
        simp [List.lookup_cons, hb, ih]

theorem insert_track_history (db : DB) (id : String) (v : Option TrackData) :
    (insert_track db id v).history = db.history := by
  cases v
  · simp only [insert_track]
    split <;> rfl
  · rfl

theorem insert_track_none_lookup_preserved {db : DB} {k : String} {v : Option TrackData}
    (h : db.tracks.lookup k = some v) (id : String) :
    (insert_track db id none).tracks.lookup k = some v := by
  simp only [insert_track]
  split
  · exact h
  · exact lookup_append_of_eq_some h

theorem insert_track_none_mem (db : DB) (id : String) :
    ((insert_track db id none).tracks.lookup id).isSome := by
  simp only [insert_track]
  split
  · assumption
  · next habs =>
    have hnone : db.tracks.lookup id = none := by
      cases h : db.tracks.lookup id with
      | none => rfl
      | some v => exact absurd (by simp [h]) habs
    rw [lookup_append_of_eq_none hnone]
    simp [List.lookup_cons]

theorem insert_track_some_lookup (db : DB) (id : String) (t : TrackData) (k : String) :
    (insert_track db id (some t)).tracks.lookup k =
      if k = id then some (some t) else db.tracks.lookup k := by
  simp only [insert_track]
  exact lookup_upsertTrack db.tracks id k (some t)

theorem hasPlayedAt_of_history_suffix {db db' : DB} {tl : List HistoryRow}
    (h : db'.history = db.history ++ tl) {t : Int} (ht : hasPlayedAt db t = true) :
    hasPlayedAt db' t = true := by
  simp only [hasPlayedAt, h, List.any_append, Bool.or_eq_true]
  exact Or.inl ht

theorem insert_history_item_of_dup {db : DB} {t : Int} (h : hasPlayedAt db t = true)
    (id : String) (ms : Option Int) : insert_history_item db t id ms = .ok (db, 0) := by
  simp [insert_history_item, h]

theorem insert_history_item_ok {db db' : DB} {t : Int} {id : String} {ms : Option Int} {k : Nat}
    (h : insert_history_item db t id ms = .ok (db', k)) :
    db'.tracks = db.tracks ∧ (∃ tl, db'.history = db.history ++ tl)
      ∧ hasPlayedAt db' t = true := by
  simp only [insert_history_item] at h
  split at h
  · next hdup =>
    obtain ⟨rfl, rfl⟩ : db = db' ∧ 0 = k := by
      constructor <;> [skip; skip] <;> cases h <;> rfl
    exact ⟨rfl, ⟨[], by simp⟩, hdup⟩
  · split at h
    · cases h
    · next hdup _ =>
      cases h
      refine ⟨rfl, ⟨[⟨t, id, ms⟩], rfl⟩, ?_⟩
      simp [hasPlayedAt]

/-! ### C5 — placeholder inserts never clobber non-null metadata -/

theorem gdprInsertPlaceholders_lookup_preserved {db : DB} {k : String} {v : Option TrackData}
    (h : db.tracks.lookup k = some v) (l : List GdprTriple) :
    (gdprInsertPlaceholders db l).tracks.lookup k = some v := by
  induction l generalizing db with
  | nil => exact h
  | cons t rest ih =>
    exact ih (insert_track_none_lookup_preserved h t.track_id)

/-- C5: once a `tracks` row holds non-null metadata, a placeholder insert for
that id — whether the single `_insert_track(cur, track_id)` call with no track
data, or the bulk import's batched `INSERT OR IGNORE INTO tracks (track_id)`
over any normalized triple list — leaves the stored metadata unchanged. -/
theorem placeholder_never_clobbers_metadata (db : DB) (id : String) (d : TrackData)
    (h : db.tracks.lookup id = some (some d)) :
    insert_track db id none = db ∧
      ∀ l : List GdprTriple,
        (gdprInsertPlaceholders db l).tracks.lookup id = some (some d) := by
  constructor
  · simp only [insert_track]
    rw [if_pos (by simp [h])]
  · intro l
    exact gdprInsertPlaceholders_lookup_preserved h l

/-- Witness for C5 at a concrete store: track `"a"` holds metadata with
duration 5; a direct placeholder insert and a bulk placeholder batch both
leave it unchanged. -/
theorem placeholder_never_clobbers_metadata_witness :
    insert_track ⟨[("a", some ⟨some 5⟩)], []⟩ "a" none = ⟨[("a", some ⟨some 5⟩)], []⟩ ∧
      (gdprInsertPlaceholders ⟨[("a", some ⟨some 5⟩)], []⟩
          [⟨3, "a", 7⟩, ⟨4, "b", 9⟩]).tracks.lookup "a" = some (some ⟨some 5⟩) :=
  ⟨(placeholder_never_clobbers_metadata ⟨[("a", some ⟨some 5⟩)], []⟩ "a" ⟨some 5⟩ rfl).1,
   (placeholder_never_clobbers_metadata ⟨[("a", some ⟨some 5⟩)], []⟩ "a" ⟨some 5⟩ rfl).2
     [⟨3, "a", 7⟩, ⟨4, "b", 9⟩]⟩

/-! ### C7 — GDPR export normalization -/

theorem gdprNormalize_step_mem (acc : List GdprTriple) (e : GdprEntry) (t : GdprTriple) :
    (t ∈ match e.ts, e.ms_played, e.spotify_track_uri with
      | some ts, some ms, some uri =>
        if ms = 0 then acc
        else
          let t2 : GdprTriple := ⟨ts, gdprTrackId uri, ms⟩
          if t2 ∈ acc then acc else acc ++ [t2]
      | _, _, _ => acc) ↔ t ∈ acc ∨ GdprMatches e t := by
  obtain ⟨ts, ms, uri⟩ := e
  cases ts with
  | none => simp [GdprMatches]
  | some tsv =>
    cases ms with
    | none => simp [GdprMatches]
    | some msv =>
      cases uri with
      | none => simp [GdprMatches]
      | some uriv =>
        simp only
        by_cases hms : msv = 0
        · rw [if_pos hms]
          subst hms
          constructor
          · exact fun h => Or.inl h
          · rintro (h | ⟨h1, h2, h3, _⟩)
            · exact h
            · have h2b : (0 : Int) = t.ms_played := Option.some.inj h2
              exact absurd h2b.symm h3
        · rw [if_neg hms]
          have hmatch : GdprMatches ⟨some tsv, some msv, some uriv⟩ t ↔
              t = ⟨tsv, gdprTrackId uriv, msv⟩ := by
            constructor
            · rintro ⟨h1, h2, h3, u, hu, hid⟩
              cases h1; cases h2; cases hu
              obtain ⟨tp, ti, tm⟩ := t
              simp only at hid ⊢
              simp [hid]
            · rintro rfl
              exact ⟨rfl, rfl, hms, uriv, rfl, rfl⟩
          split
          · next hmem =>
            rw [hmatch]
            constructor
            · exact fun h => Or.inl h
            · rintro (h | rfl)
              · exact h
              · exact hmem
          · rw [hmatch]
            simp [List.mem_append]

theorem gdprNormalize_foldl_mem (l : List GdprEntry) (acc : List GdprTriple) (t : GdprTriple) :
    t ∈ l.foldl
        (fun acc e =>
          match e.ts, e.ms_played, e.spotify_track_uri with
          | some ts, some ms, some uri =>
            if ms = 0 then acc
            else
              let t2 : GdprTriple := ⟨ts, gdprTrackId uri, ms⟩
              if t2 ∈ acc then acc else acc ++ [t2]
          | _, _, _ => acc) acc ↔
      t ∈ acc ∨ ∃ e ∈ l, GdprMatches e t := by
  induction l generalizing acc with
  | nil => simp
  | cons e rest ih =>
    rw [List.foldl_cons, ih]
    rw [gdprNormalize_step_mem acc e t]
    constructor
    · rintro ((h | h) | ⟨e2, he2, hm⟩)
      · exact Or.inl h
      · exact Or.inr ⟨e, by simp, h⟩
      · exact Or.inr ⟨e2, by simp [he2], hm⟩
    · rintro (h | ⟨e2, he2, hm⟩)
      · exact Or.inl (Or.inl h)
      · rcases List.mem_cons.mp he2 with rfl | h2
        · exact Or.inl (Or.inr hm)
        · exact Or.inr ⟨e2, h2, hm⟩

theorem gdprNormalize_foldl_nodup (l : List GdprEntry) (acc : List GdprTriple)
    (h : acc.Nodup) :
    (l.foldl
        (fun acc e =>
          match e.ts, e.ms_played, e.spotify_track_uri with
          | some ts, some ms, some uri =>
            if ms = 0 then acc
            else
              let t2 : GdprTriple := ⟨ts, gdprTrackId uri, ms⟩
              if t2 ∈ acc then acc else acc ++ [t2]
          | _, _, _ => acc) acc).Nodup := by
  induction l generalizing acc with
  | nil => exact h
  | cons e rest ih =>
    rw [List.foldl_cons]
    apply ih
    obtain ⟨ts, ms, uri⟩ := e
    cases ts <;> cases ms <;> cases uri <;> try exact h
    simp only
    split
    · exact h
    · split
      · exact h
      · next hmem =>
        simpa [List.nodup_append, hmem] using h

/-- C7: the normalized set fed to the store by `insert_from_gdpr_json`
contains exactly the `(timestamp, track-id, ms_played)` triples of export
records with all of `ts`, `ms_played`, `spotify_track_uri` present and
`ms_played ≠ 0`, the track id being the final colon-delimited URI segment
(`gdprTrackId`); exact duplicates are deduplicated by set semantics (the
result is duplicate-free), and in particular a record with `ms_played = 500`
satisfies the inclusion condition.  Excluded records are dropped silently —
the normalization is total, returning a list rather than an error. -/
theorem gdpr_normalization_exact (entries : List GdprEntry) :
    (gdprNormalize entries).Nodup ∧
      ∀ t, t ∈ gdprNormalize entries ↔ ∃ e ∈ entries, GdprMatches e t := by
  refine ⟨gdprNormalize_foldl_nodup entries [] List.nodup_nil, fun t => ?_⟩
  rw [gdprNormalize, gdprNormalize_foldl_mem entries [] t]
  simp

/-! ### C1 / C10 — the duration backfill estimator -/

theorem backfillEstimate_length {l out : List ScanRow} (h : backfillEstimate l = .ok out) :
    out.length = l.length := by
  induction l generalizing out with
  | nil => cases h; rfl
  | cons r rest ih =>
    cases rest with
    | nil => cases h; rfl
    | cons next rest2 =>
      rw [backfillEstimate] at h
      split at h
      · cases he : backfillEstimate (next :: rest2) with
        | error e => rw [he] at h; cases h
        | ok out2 =>
          rw [he] at h
          cases h
          simpa using ih he
      · split at h
        · cases h
        · cases he : backfillEstimate (next :: rest2) with
          | error e => rw [he] at h; cases h
          | ok out2 =>
            rw [he] at h
            cases h
            simpa using ih he

/-- C1 (amended): the estimation loop of `backfill_ms_played` leaves a final
row with missing `ms_played` untouched (the Python loop breaks on
`IndexError`), rather than assigning it the track's full duration. -/
theorem backfill_last_row_left_null {l out : List ScanRow}
    (h : backfillEstimate l = .ok out)
    (hl : l.getLast?.map (·.ms_played) = some none) :
    out.getLast?.map (·.ms_played) = some none ∧ out.length = l.length := by
  refine ⟨?_, backfillEstimate_length h⟩
  induction l generalizing out with
  | nil => simp at hl
  | cons r rest ih =>
    cases rest with
    | nil =>
      cases h
      simpa using hl
    | cons next rest2 =>
      rw [List.getLast?_cons_cons] at hl
      rw [backfillEstimate] at h
      have step : ∀ r2 out2, backfillEstimate (next :: rest2) = .ok out2 →
          out = r2 :: out2 → out.getLast?.map (·.ms_played) = some none := by
        intro r2 out2 he hout
        have hlen : out2.length = (next :: rest2).length := backfillEstimate_length he
        cases out2 with
        | nil => simp at hlen
        | cons o os =>
          rw [hout, List.getLast?_cons_cons]
          exact ih he hl
      split at h
      · cases he : backfillEstimate (next :: rest2) with
        | error e => rw [he] at h; cases h
        | ok out2 =>
          rw [he] at h
          cases h
          exact step r out2 he rfl
      · split at h
        · cases h
        · cases he : backfillEstimate (next :: rest2) with
          | error e => rw [he] at h; cases h
          | ok out2 =>
            rw [he] at h
            cases h
            exact step _ out2 he rfl

/-- Counterexample to C1 as stated, at the spec's own example input: plays at
t=0 (track duration 200000 ms) and t=150 (track duration 180000 ms), both
with missing `ms_played`.  `backfill_ms_played` fills the first row with
150000 but leaves the last row NULL — it is not assigned its full duration
180000 (the claimed output would end in `some 180000`). -/
theorem backfill_last_row_counterexample :
    backfill_ms_played
        ⟨[("a", some ⟨some 200000⟩), ("b", some ⟨some 180000⟩)],
         [⟨0, "a", none⟩, ⟨150, "b", none⟩]⟩ 0 =
      .ok (⟨[("a", some ⟨some 200000⟩), ("b", some ⟨some 180000⟩)],
         [⟨0, "a", some 150000⟩, ⟨150, "b", none⟩]⟩, 2) ∧
      ([⟨0, "a", some 150000⟩, ⟨150, "b", none⟩] : List HistoryRow).getLast?.map
          (·.ms_played) ≠ some (some 180000) := by
  constructor
  · norm_num [backfill_ms_played, scanRows, sortByPlayedAt, orderedInsertByPlayedAt,
      backfillEstimate, backfillUpdate, List.lookup_cons, hasPlayedAt, List.filterMap]
  · decide

/-- Witness for the amended C1 at a concrete input: a single scanned row with
missing `ms_played` is returned untouched. -/
theorem backfill_last_row_left_null_witness :
    (Except.ok [(⟨7, "a", some 1000, none⟩ : ScanRow)] :
        Except Unit (List ScanRow)).map (fun out => out.getLast?.map (·.ms_played)) =
      .ok (some none) := by
  have h := @backfill_last_row_left_null
    [⟨7, "a", some 1000, none⟩] [⟨7, "a", some 1000, none⟩] rfl (by decide)
  rw [Except.map, h.1]

theorem backfillEstimate_error_iff_hasBadRow (l : List ScanRow) :
    backfillEstimate l = .error () ↔ hasBadRow l = true := by
  induction l with
  | nil => simp [backfillEstimate, hasBadRow]
  | cons r rest ih =>
    cases rest with
    | nil => simp [backfillEstimate, hasBadRow]
    | cons next rest2 =>
      rw [backfillEstimate, hasBadRow]
      cases hms : r.ms_played with
      | some v =>
        simp only [hms, Option.isSome_some, if_true]
        cases he : backfillEstimate (next :: rest2) with
        | error e =>
          cases e
          simp [ih.mp he]
        | ok out2 =>
          have : ¬hasBadRow (next :: rest2) = true := fun hb => by
            rw [ih.mpr hb] at he; cases he
          simp [he, this]
      | none =>
        simp only [hms, Option.isSome_none, Bool.false_eq_true, if_false]
        cases hd : r.duration_ms with
        | none => simp
        | some d =>
          simp only
          cases he : backfillEstimate (next :: rest2) with
          | error e =>
            cases e
            simp [ih.mp he]
          | ok out2 =>
            have : ¬hasBadRow (next :: rest2) = true := fun hb => by
              rw [ih.mpr hb] at he; cases he
            simp [he, this]

theorem hasBadRow_iff_index (l : List ScanRow) :
    hasBadRow l = true ↔
      ∃ i, ∃ h : i + 1 < l.length,
        (l.get ⟨i, Nat.lt_of_succ_lt h⟩).ms_played = none ∧
        (l.get ⟨i, Nat.lt_of_succ_lt h⟩).duration_ms = none := by
  induction l with
  | nil =>
    simp only [hasBadRow, List.length_nil]
    constructor
    · intro h; cases h
    · rintro ⟨i, h, -⟩; omega
  | cons r rest ih =>
    cases rest with
    | nil =>
      simp only [hasBadRow, List.length_cons, List.length_nil]
      constructor
      · intro h; cases h
      · rintro ⟨i, h, -⟩; omega
    | cons next rest2 =>
      rw [hasBadRow]
      simp only [Bool.or_eq_true, Bool.and_eq_true, beq_iff_eq]
      constructor
      · intro h
        rcases h with ⟨h1, h2⟩ | h2
        · exact ⟨0, by simp, h1, h2⟩
        · obtain ⟨i, hi, hp1, hp2⟩ := ih.mp h2
          refine ⟨i + 1, by simpa using Nat.succ_lt_succ hi, ?_, ?_⟩
          · simpa using hp1
          · simpa using hp2
      · rintro ⟨i, hi, hp1, hp2⟩
        cases i with
        | zero => exact Or.inl ⟨by simpa using hp1, by simpa using hp2⟩
        | succ j =>
          refine Or.inr (ih.mpr ⟨j, ?_, ?_, ?_⟩)
          · simpa using Nat.lt_of_succ_lt_succ hi
          · simpa using hp1
          · simpa using hp2

/-- C10: `backfill_ms_played` fails (the `TypeError` of `row["duration_ms"] /
1000` on a NULL duration propagates) exactly when the scanned range contains
a row that is not the last one, has missing `ms_played`, and whose joined
track duration is NULL; consequently, when no such row exists — every
non-final row with missing `ms_played` has a non-null declared duration —
the error branch is unreachable and the call returns normally. -/
theorem backfill_error_iff_bad_row (db : DB) (b : Int) :
    (backfill_ms_played db b = .error () ↔
      ∃ i, ∃ h : i + 1 < (scanRows db b).length,
        ((scanRows db b).get ⟨i, Nat.lt_of_succ_lt h⟩).ms_played = none ∧
        ((scanRows db b).get ⟨i, Nat.lt_of_succ_lt h⟩).duration_ms = none) ∧
      ((¬∃ i, ∃ h : i + 1 < (scanRows db b).length,
        ((scanRows db b).get ⟨i, Nat.lt_of_succ_lt h⟩).ms_played = none ∧
        ((scanRows db b).get ⟨i, Nat.lt_of_succ_lt h⟩).duration_ms = none) →
        ∃ out, backfill_ms_played db b = .ok out) := by
  have herr : backfill_ms_played db b = .error () ↔
      backfillEstimate (scanRows db b) = .error () := by
    rw [backfill_ms_played]
    cases he : backfillEstimate (scanRows db b) with
    | error e => cases e; simp
    | ok rows => simp
  have hiff := (herr.trans (backfillEstimate_error_iff_hasBadRow _)).trans
    (hasBadRow_iff_index _)
  refine ⟨hiff, fun hno => ?_⟩
  rw [backfill_ms_played]
  cases he : backfillEstimate (scanRows db b) with
  | error e =>
    cases e
    exact absurd (hiff.mp (by rw [backfill_ms_played, he])) hno
  | ok rows => exact ⟨_, rfl⟩

/-! ### C2 — migration failure is not rolled back atomically -/

/-- C2 (divergence witness): open a version-1 store holding a placeholder
track `"a"` (NULL metadata) and two history rows referencing it.  Migration 2
runs, its post-migration function `backfill_ms_played` raises (`TypeError` on
the NULL duration of a non-final row), and the error propagates to the caller
of the database open — but the committed result still has `user_version = 2`
and the `ms_played` column added: the schema change and version bump are NOT
undone, contradicting the atomic-rollback claim.  (Under Python sqlite3
legacy autocommit, `executescript` and `PRAGMA user_version` commit
immediately; only uncommitted DML would be rolled back by `with self.con:`.) -/
theorem migration_failure_not_rolled_back :
    apply_migrations ⟨1, false, ⟨[("a", none)], [⟨0, "a", none⟩, ⟨100, "a", none⟩]⟩⟩ =
      .error ⟨2, true, ⟨[("a", none)], [⟨0, "a", none⟩, ⟨100, "a", none⟩]⟩⟩ ∧
      (⟨2, true, ⟨[("a", none)], [⟨0, "a", none⟩, ⟨100, "a", none⟩]⟩⟩ :
          MigrationState).version ≠ 1 := by
  constructor
  · norm_num [apply_migrations, backfill_ms_played, scanRows, sortByPlayedAt,
      orderedInsertByPlayedAt, backfillEstimate, List.lookup_cons, hasPlayedAt,
      List.filterMap]
  · decide

/-! ### C9 — result limits -/

/-- C9 (amended): a strictly negative limit is unlimited — `get_top_tracks`
and `get_today_last_year` return every grouped row of the window — and the
CLI `--limit` default of both read operations is 10.  (`LIMIT 0`, by
contrast, returns no rows; see the counterexample.) -/
theorem limit_negative_unlimited (db : DB) (s e d limit : Int) (h : limit < 0) :
    get_top_tracks db s e limit = List.insertionSort topLe (topGroups db s e) ∧
      get_today_last_year db d limit = List.insertionSort topLe (topGroups db d d) ∧
      top_tracks_limit_default = 10 ∧ today_last_year_limit_default = 10 := by
  refine ⟨?_, ?_, rfl, rfl⟩ <;>
    simp [get_top_tracks, get_today_last_year, applyLimit, if_pos h]

/-- Witness for the amended C9 at a concrete store and limit `-1`. -/
theorem limit_negative_unlimited_witness :
    get_top_tracks ⟨[("a", none)], [⟨86400, "a", none⟩]⟩ 1 1 (-1) =
        List.insertionSort topLe (topGroups ⟨[("a", none)], [⟨86400, "a", none⟩]⟩ 1 1) ∧
      get_today_last_year ⟨[("a", none)], [⟨86400, "a", none⟩]⟩ 1 (-1) =
        List.insertionSort topLe (topGroups ⟨[("a", none)], [⟨86400, "a", none⟩]⟩ 1 1) ∧
      top_tracks_limit_default = 10 ∧ today_last_year_limit_default = 10 :=
  limit_negative_unlimited ⟨[("a", none)], [⟨86400, "a", none⟩]⟩ 1 1 1 (-1) (by decide)

/-- Counterexample to C9 as stated: with one matching play in the window,
`limit = 0` returns no rows at all (SQL `LIMIT 0`), while an unlimited query
returns the matching row — so `limit ≤ 0` is not uniformly "unlimited". -/
theorem limit_zero_not_unlimited :
    get_top_tracks ⟨[("a", none)], [⟨0, "a", none⟩]⟩ 0 0 0 = [] ∧
      get_top_tracks ⟨[("a", none)], [⟨0, "a", none⟩]⟩ 0 0 (-1) = [⟨"a", 0, 1⟩] := by
  decide

/-! ### C8 — top-tracks grouping and ordering -/

theorem applyLimit_sublist (limit : Int) (l : List TopRow) : (applyLimit limit l).Sublist l := by
  rw [applyLimit]
  split
  · exact List.Sublist.refl l
  · exact List.take_sublist _ l

theorem topGroups_map_track_id (db : DB) (s e : Int) :
    (topGroups db s e).map (·.track_id) =
      ((topWindowRows db s e).map (·.track_id)).dedup := by
  rw [topGroups, List.map_map]
  exact List.map_id' _

/-- C8: for every date window and limit, `get_top_tracks` returns at most one
row per track (the returned track ids are duplicate-free), each row carrying
the track's play count within the window and its first-played (minimum)
timestamp, and the result is sorted by play count descending with ties broken
by first-played timestamp ascending (`topLe`). -/
theorem top_tracks_ordering (db : DB) (s e limit : Int) :
    (get_top_tracks db s e limit).Pairwise topLe ∧
      ((get_top_tracks db s e limit).map (·.track_id)).Nodup ∧
      ∀ row ∈ get_top_tracks db s e limit,
        row.play_count =
            ((topWindowRows db s e).filter (fun r => r.track_id == row.track_id)).length ∧
          (((topWindowRows db s e).filter
              (fun r => r.track_id == row.track_id)).map (·.played_at)).min? =
            some row.played_first_at := by
  refine ⟨?_, ?_, ?_⟩
  · exact ((List.sorted_insertionSort topLe (topGroups db s e)).sublist
      (applyLimit_sublist limit _))
  · have hperm : List.Perm
        ((List.insertionSort topLe (topGroups db s e)).map (fun r : TopRow => r.track_id))
        ((topGroups db s e).map (fun r : TopRow => r.track_id)) :=
      (List.perm_insertionSort topLe (topGroups db s e)).map _
    have hnd0 : ((topGroups db s e).map (fun r : TopRow => r.track_id)).Nodup := by
      rw [topGroups_map_track_id db s e]
      exact List.nodup_dedup _
    have hnd : ((List.insertionSort topLe (topGroups db s e)).map
        (fun r : TopRow => r.track_id)).Nodup := hperm.nodup_iff.mpr hnd0
    exact hnd.sublist ((applyLimit_sublist limit _).map _)
  · intro row hrow
    have hmem : row ∈ topGroups db s e := by
      have h1 : row ∈ List.insertionSort topLe (topGroups db s e) :=
        (applyLimit_sublist limit _).mem hrow
      exact (List.mem_insertionSort topLe).mp h1
    rw [topGroups] at hmem
    obtain ⟨id, hid, rfl⟩ := List.mem_map.mp hmem
    have hid2 : id ∈ (topWindowRows db s e).map (·.track_id) := List.mem_dedup.mp hid
    obtain ⟨r0, hr0, hr0id⟩ := List.mem_map.mp hid2
    have hne : (topWindowRows db s e).filter (fun r => r.track_id == id) ≠ [] := by
      intro hnil
      have : r0 ∈ (topWindowRows db s e).filter (fun r => r.track_id == id) :=
        List.mem_filter.mpr ⟨hr0, beq_iff_eq.mpr hr0id⟩
      rw [hnil] at this
      cases this
    have hne2 : ((topWindowRows db s e).filter
        (fun r => r.track_id == id)).map (·.played_at) ≠ [] := by
      simpa using hne
    cases hm : (((topWindowRows db s e).filter
        (fun r => r.track_id == id)).map (·.played_at)).min? with
    | none => exact absurd (List.min?_eq_none_iff.mp hm) hne2
    | some m =>
      refine ⟨rfl, ?_⟩
      simp only [hm, Option.getD_some]

/-! ### C3 / C4 — live-feed ingestion -/

theorem insert_history_item_of_present {db : DB} {id : String}
    (hp : (db.tracks.lookup id).isSome = true) (t : Int) (ms : Option Int) :
    ∃ db' k, insert_history_item db t id ms = .ok (db', k) := by
  rw [insert_history_item]
  split
  · exact ⟨db, 0, rfl⟩
  · split
    · next hN =>
      rw [Option.isNone_iff_eq_none] at hN
      rw [hN] at hp
      cases hp
    · exact ⟨_, 1, rfl⟩

theorem insert_history_item_no_orphans {db db' : DB} {t : Int} {id : String}
    {ms : Option Int} {k : Nat} (h : insert_history_item db t id ms = .ok (db', k))
    (hno : NoOrphans db) : NoOrphans db' := by
  rw [insert_history_item] at h
  split at h
  · cases h; exact hno
  · split at h
    · cases h
    · next hN =>
      cases h
      intro r hr
      rcases List.mem_append.mp hr with h1 | h1
      · exact hno r h1
      · have : r = ⟨t, id, ms⟩ := by simpa using h1
        subst this
        cases h2 : db.tracks.lookup id with
        | none => exact absurd (by simp [h2]) hN
        | some v => simp [h2]

theorem insert_track_some_no_orphans (db : DB) (id : String) (td : TrackData)
    (hno : NoOrphans db) : NoOrphans (insert_track db id (some td)) := by
  intro r hr
  rw [insert_track_history] at hr
  rw [insert_track_some_lookup]
  split
  · simp
  · exact hno r hr

theorem insertOneEvent_ok (db : DB) (item : PlayHistoryObject) :
    ∃ db' k, insertOneEvent db item = .ok (db', k) ∧
      (∃ tl, db'.history = db.history ++ tl) ∧
      hasPlayedAt db' item.played_at = true ∧
      (NoOrphans db → NoOrphans db') := by
  rw [insertOneEvent]
  cases h1 : insert_history_item db item.played_at item.track.id none with
  | ok p =>
    obtain ⟨db', k⟩ := p
    obtain ⟨-, hsuf, hpa⟩ := insert_history_item_ok h1
    exact ⟨db', k, rfl, hsuf, hpa, insert_history_item_no_orphans h1⟩
  | error e =>
    set db2 := insert_track db item.track.id (some item.track.data) with hdb2
    have hp : (db2.tracks.lookup item.track.id).isSome = true := by
      rw [hdb2, insert_track_some_lookup, if_pos rfl]
      rfl
    obtain ⟨db', k, h2⟩ := insert_history_item_of_present hp item.played_at none
    obtain ⟨-, hsuf, hpa⟩ := insert_history_item_ok h2
    refine ⟨db', k, h2, ?_, hpa, ?_⟩
    · obtain ⟨tl, htl⟩ := hsuf
      exact ⟨tl, by rw [htl, hdb2, insert_track_history]⟩
    · intro hno
      exact insert_history_item_no_orphans h2
        (by rw [hdb2]; exact insert_track_some_no_orphans db item.track.id item.track.data hno)

theorem insertPlayHistoryLoop_ok (db : DB) (items : List PlayHistoryObject) :
    ∃ db' n, insertPlayHistoryLoop db items = .ok (db', n) ∧
      (∃ tl, db'.history = db.history ++ tl) ∧
      (∀ item ∈ items, hasPlayedAt db' item.played_at = true) ∧
      (NoOrphans db → NoOrphans db') := by
  induction items generalizing db with
  | nil =>
    exact ⟨db, 0, rfl, ⟨[], by simp⟩, by simp, id⟩
  | cons item rest ih =>
    obtain ⟨db1, k, h1, ⟨tl1, htl1⟩, hpa1, hno1⟩ := insertOneEvent_ok db item
    obtain ⟨db2, n, h2, ⟨tl2, htl2⟩, hall2, hno2⟩ := ih db1
    refine ⟨db2, k + n, ?_, ⟨tl1 ++ tl2, by rw [htl2, htl1, List.append_assoc]⟩, ?_, ?_⟩
    · simp only [insertPlayHistoryLoop, h1, h2]
    · intro it hit
      rcases List.mem_cons.mp hit with rfl | h3
      · exact hasPlayedAt_of_history_suffix htl2 hpa1
      · exact hall2 it h3
    · exact fun hno => hno2 (hno1 hno)

theorem insertPlayHistoryLoop_of_all_present {db : DB} {items : List PlayHistoryObject}
    (hall : ∀ item ∈ items, hasPlayedAt db item.played_at = true) :
    insertPlayHistoryLoop db items = .ok (db, 0) := by
  induction items with
  | nil => rfl
  | cons item rest ih =>
    have h1 : insertOneEvent db item = .ok (db, 0) := by
      rw [insertOneEvent, insert_history_item_of_dup (hall item (by simp)) _ _]
    simp only [insertPlayHistoryLoop, h1, ih (fun it hit => hall it (by simp [hit]))]

theorem insert_play_history_objects_loop_eq {db db1 : DB} {items : List PlayHistoryObject}
    {n : Nat} (h : insert_play_history_objects db items none = .ok (db1, n)) :
    insertPlayHistoryLoop db items = .ok (db1, n) := by
  rw [insert_play_history_objects] at h
  cases hl : insertPlayHistoryLoop db items with
  | error e => rw [hl] at h; cases h
  | ok p =>
    obtain ⟨db2, m⟩ := p
    rw [hl] at h
    cases h
    rfl

/-- C3: ingesting the same list of live-feed play events a second time leaves
the ledger unchanged — the second call returns the same database with an
added-count of 0: every insert attempt hits an already-present `played_at`
primary key and is silently ignored (counted as not added), and no error is
raised. -/
theorem ingest_idempotent (db : DB) (items : List PlayHistoryObject) (db1 : DB) (n : Nat)
    (h : insert_play_history_objects db items none = .ok (db1, n)) :
    insert_play_history_objects db1 items none = .ok (db1, 0) := by
  have hloop := insert_play_history_objects_loop_eq h
  obtain ⟨db', n', h1, -, hall, -⟩ := insertPlayHistoryLoop_ok db items
  rw [hloop] at h1
  obtain ⟨rfl, rfl⟩ : db1 = db' ∧ n = n' := by
    cases h1
    exact ⟨rfl, rfl⟩
  rw [insert_play_history_objects, insertPlayHistoryLoop_of_all_present hall]

/-- Witness for C3: ingesting one event into an empty store (which takes the
create-then-retry path), then ingesting the same list again, returns the
unchanged store with count 0. -/
theorem ingest_idempotent_witness :
    insert_play_history_objects ⟨[("a", some ⟨some 1000⟩)], [⟨7, "a", none⟩]⟩
        [⟨7, ⟨"a", ⟨some 1000⟩⟩⟩] none =
      .ok (⟨[("a", some ⟨some 1000⟩)], [⟨7, "a", none⟩]⟩, 0) :=
  ingest_idempotent ⟨[], []⟩ [⟨7, ⟨"a", ⟨some 1000⟩⟩⟩]
    ⟨[("a", some ⟨some 1000⟩)], [⟨7, "a", none⟩]⟩ 1 (by decide)

/-- C4: on a store satisfying the foreign-key invariant, ingestion never
surfaces a failure (a missing `tracks` row triggers the insert-full-track-
then-retry path instead of an error), every ingested event ends up present in
the ledger, and afterwards every history row still references an existing
tracks row — no orphan play events. -/
theorem ingest_no_orphans (db : DB) (items : List PlayHistoryObject)
    (h : NoOrphans db) :
    ∃ db' n, insert_play_history_objects db items none = .ok (db', n) ∧
      NoOrphans db' ∧ ∀ item ∈ items, hasPlayedAt db' item.played_at = true := by
  obtain ⟨db', n, h1, -, hall, hno⟩ := insertPlayHistoryLoop_ok db items
  exact ⟨db', n, by rw [insert_play_history_objects, h1], hno h, hall⟩

/-- Witness for C4: ingesting two events (one referencing an unknown track)
into an empty store succeeds and preserves the invariant. -/
theorem ingest_no_orphans_witness :
    ∃ db' n,
      insert_play_history_objects ⟨[], []⟩
          ([⟨7, ⟨"a", ⟨some 1⟩⟩⟩, ⟨9, ⟨"b", ⟨some 2⟩⟩⟩] : List PlayHistoryObject) none =
          .ok (db', n) ∧
        NoOrphans db' ∧
        ∀ item ∈ ([⟨7, ⟨"a", ⟨some 1⟩⟩⟩, ⟨9, ⟨"b", ⟨some 2⟩⟩⟩] : List PlayHistoryObject),
          hasPlayedAt db' item.played_at = true :=
  ingest_no_orphans ⟨[], []⟩ ([⟨7, ⟨"a", ⟨some 1⟩⟩⟩, ⟨9, ⟨"b", ⟨some 2⟩⟩⟩] : List PlayHistoryObject)
    (fun r hr => absurd hr (List.not_mem_nil r))

/-! ### C6 — bulk import does not regress durations; re-import is a no-op -/

theorem gdprInsertPlaceholders_cons (db : DB) (t : GdprTriple) (rest : List GdprTriple) :
    gdprInsertPlaceholders db (t :: rest) =
      gdprInsertPlaceholders (insert_track db t.track_id none) rest := rfl

theorem gdprUpdateMs_cons (db : DB) (t : GdprTriple) (rest : List GdprTriple) :
    gdprUpdateMs db (t :: rest) =
      gdprUpdateMs
        ⟨db.tracks,
         db.history.map
           (fun r =>
             if r.played_at == t.played_at && r.ms_played == none
             then { r with ms_played := some t.ms_played } else r)⟩ rest := rfl

theorem insert_track_none_lookup_isSome_preserved {db : DB} {k : String}
    (h : (db.tracks.lookup k).isSome = true) (id : String) :
    ((insert_track db id none).tracks.lookup k).isSome = true := by
  obtain ⟨v, hv⟩ := Option.isSome_iff_exists.mp h
  rw [insert_track_none_lookup_preserved hv id]
  rfl

theorem gdprInsertPlaceholders_history (db : DB) (l : List GdprTriple) :
    (gdprInsertPlaceholders db l).history = db.history := by
  induction l generalizing db with
  | nil => rfl
  | cons t rest ih =>
    rw [gdprInsertPlaceholders_cons, ih, insert_track_history]

theorem gdprInsertPlaceholders_isSome_preserved {db : DB} {k : String}
    (h : (db.tracks.lookup k).isSome = true) (l : List GdprTriple) :
    ((gdprInsertPlaceholders db l).tracks.lookup k).isSome = true := by
  induction l generalizing db with
  | nil => exact h
  | cons t rest ih =>
    exact ih (insert_track_none_lookup_isSome_preserved h t.track_id)

theorem gdprInsertPlaceholders_all_present (db : DB) (l : List GdprTriple) :
    ∀ t ∈ l, ((gdprInsertPlaceholders db l).tracks.lookup t.track_id).isSome = true := by
  induction l generalizing db with
  | nil => simp
  | cons t0 rest ih =>
    intro t ht
    rcases List.mem_cons.mp ht with rfl | h2
    · rw [gdprInsertPlaceholders_cons]
      exact gdprInsertPlaceholders_isSome_preserved
        (insert_track_none_mem db t.track_id) rest
    · exact ih (insert_track db t0.track_id none) t h2

theorem gdprInsertPlaceholders_of_all_present {db : DB} {l : List GdprTriple}
    (h : ∀ t ∈ l, (db.tracks.lookup t.track_id).isSome = true) :
    gdprInsertPlaceholders db l = db := by
  induction l with
  | nil => rfl
  | cons t rest ih =>
    have hstep : insert_track db t.track_id none = db := by
      rw [insert_track, if_pos (h t (by simp))]
    rw [gdprInsertPlaceholders_cons, hstep]
    exact ih (fun t2 ht2 => h t2 (by simp [ht2]))

theorem gdprInsertHistory_ok {db db' : DB} {l : List GdprTriple}
    (h : gdprInsertHistory db l = .ok db') :
    db'.tracks = db.tracks ∧ (∃ tl, db'.history = db.history ++ tl) ∧
      ∀ t ∈ l, hasPlayedAt db' t.played_at = true := by
  induction l generalizing db with
  | nil =>
    cases h
    exact ⟨rfl, ⟨[], by simp⟩, by simp⟩
  | cons t rest ih =>
    rw [gdprInsertHistory] at h
    cases h1 : insert_history_item db t.played_at t.track_id (some t.ms_played) with
    | error e => rw [h1] at h; cases h
    | ok p =>
      obtain ⟨db1, k⟩ := p
      rw [h1] at h
      obtain ⟨htr1, ⟨tl1, htl1⟩, hpa1⟩ := insert_history_item_ok h1
      obtain ⟨htr2, ⟨tl2, htl2⟩, hall2⟩ := ih h
      refine ⟨htr2.trans htr1, ⟨tl1 ++ tl2, by rw [htl2, htl1, List.append_assoc]⟩, ?_⟩
      intro t2 ht2
      rcases List.mem_cons.mp ht2 with rfl | h3
      · exact hasPlayedAt_of_history_suffix htl2 hpa1
      · exact hall2 t2 h3

theorem gdprInsertHistory_total {db : DB} {l : List GdprTriple}
    (h : ∀ t ∈ l, (db.tracks.lookup t.track_id).isSome = true) :
    ∃ db', gdprInsertHistory db l = .ok db' := by
  induction l generalizing db with
  | nil => exact ⟨db, rfl⟩
  | cons t rest ih =>
    obtain ⟨db1, k, h1⟩ := insert_history_item_of_present (h t (by simp))
      t.played_at (some t.ms_played)
    obtain ⟨htr, -, -⟩ := insert_history_item_ok h1
    obtain ⟨db2, h2⟩ := @ih db1
      (fun t2 ht2 => by rw [htr]; exact h t2 (by simp [ht2]))
    refine ⟨db2, ?_⟩
    simp only [gdprInsertHistory, h1]
    exact h2

theorem gdprInsertHistory_of_all_dup {db : DB} {l : List GdprTriple}
    (h : ∀ t ∈ l, hasPlayedAt db t.played_at = true) :
    gdprInsertHistory db l = .ok db := by
  induction l with
  | nil => rfl
  | cons t rest ih =>
    rw [gdprInsertHistory, insert_history_item_of_dup (h t (by simp)) _ _]
    exact ih (fun t2 ht2 => h t2 (by simp [ht2]))

theorem gdprUpdateMs_tracks (db : DB) (l : List GdprTriple) :
    (gdprUpdateMs db l).tracks = db.tracks := by
  induction l generalizing db with
  | nil => rfl
  | cons t rest ih =>
    rw [gdprUpdateMs_cons]
    exact ih _

theorem gdprUpdateMs_step_played_at (t : GdprTriple) (r : HistoryRow) :
    ((if r.played_at == t.played_at && r.ms_played == none
        then { r with ms_played := some t.ms_played } else r) : HistoryRow).played_at =
      r.played_at := by
  split <;> rfl

theorem gdprUpdateMs_hasPlayedAt (db : DB) (l : List GdprTriple) (p : Int) :
    hasPlayedAt (gdprUpdateMs db l) p = hasPlayedAt db p := by
  induction l generalizing db with
  | nil => rfl
  | cons t rest ih =>
    rw [gdprUpdateMs_cons, ih]
    simp only [hasPlayedAt, List.any_map]
    congr 1
    funext r
    simp only [Function.comp_apply]
    rw [gdprUpdateMs_step_played_at]

theorem gdprUpdateMs_mem_of_isSome {db : DB} {r : HistoryRow} (hr : r ∈ db.history)
    (hs : r.ms_played.isSome = true) (l : List GdprTriple) :
    r ∈ (gdprUpdateMs db l).history := by
  induction l generalizing db with
  | nil => exact hr
  | cons t rest ih =>
    rw [gdprUpdateMs_cons]
    apply ih
    have hfr : (if r.played_at == t.played_at && r.ms_played == none
        then { r with ms_played := some t.ms_played } else r) = r := by
      rw [if_neg]
      intro hc
      have h2 := (Bool.and_eq_true _ _).mp hc
      rw [beq_iff_eq.mp h2.2] at hs
      cases hs
    exact hfr ▸ List.mem_map_of_mem _ hr

theorem gdprUpdateMs_step_allSomeAt {db : DB} {p : Int} (h : AllSomeAt db p)
    (t : GdprTriple) :
    AllSomeAt ⟨db.tracks,
      db.history.map
        (fun r =>
          if r.played_at == t.played_at && r.ms_played == none
          then { r with ms_played := some t.ms_played } else r)⟩ p := by
  intro m hm hp
  obtain ⟨r, hr, hfr⟩ := List.mem_map.mp hm
  by_cases hc : (r.played_at == t.played_at && r.ms_played == none) = true
  · rw [if_pos hc] at hfr
    rw [← hfr]
    rfl
  · rw [if_neg hc] at hfr
    subst hfr
    exact h r hr hp

theorem gdprUpdateMs_allSomeAt_preserved {db : DB} {p : Int} (h : AllSomeAt db p)
    (l : List GdprTriple) : AllSomeAt (gdprUpdateMs db l) p := by
  induction l generalizing db with
  | nil => exact h
  | cons t rest ih =>
    rw [gdprUpdateMs_cons]
    exact ih (gdprUpdateMs_step_allSomeAt h t)

theorem gdprUpdateMs_allSomeAt (db : DB) (l : List GdprTriple) :
    ∀ t ∈ l, AllSomeAt (gdprUpdateMs db l) t.played_at := by
  induction l generalizing db with
  | nil => simp
  | cons t0 rest ih =>
    intro t ht
    rcases List.mem_cons.mp ht with rfl | h2
    · rw [gdprUpdateMs_cons]
      apply gdprUpdateMs_allSomeAt_preserved
      intro m hm hp
      obtain ⟨r, hr, hfr⟩ := List.mem_map.mp hm
      by_cases hc : (r.played_at == t.played_at && r.ms_played == none) = true
      · rw [if_pos hc] at hfr
        rw [← hfr]
        rfl
      · rw [if_neg hc] at hfr
        subst hfr
        rcases Bool.and_eq_false_iff.mp (Bool.eq_false_iff.mpr hc) with h3 | h3
        · exact absurd (beq_iff_eq.mpr hp) (Bool.eq_false_iff.mp h3)
        · cases hms : r.ms_played with
          | none => rw [hms] at h3; simp at h3
          | some v => rfl
    · rw [gdprUpdateMs_cons]
      exact ih _ t h2

theorem gdprUpdateMs_of_allSome {db : DB} {l : List GdprTriple}
    (h : ∀ t ∈ l, AllSomeAt db t.played_at) : gdprUpdateMs db l = db := by
  induction l with
  | nil => rfl
  | cons t rest ih =>
    have hcong : ∀ r ∈ db.history,
        (if r.played_at == t.played_at && r.ms_played == none
          then ({ r with ms_played := some t.ms_played } : HistoryRow) else r) = r := by
      intro r hr
      rw [if_neg]
      intro hc
      have h2 := (Bool.and_eq_true _ _).mp hc
      have hsome := h t (by simp) r hr (beq_iff_eq.mp h2.1)
      rw [beq_iff_eq.mp h2.2] at hsome
      cases hsome
    have hstep : db.history.map
        (fun r =>
          if r.played_at == t.played_at && r.ms_played == none
          then { r with ms_played := some t.ms_played } else r) = db.history := by
      rw [List.map_congr_left hcong, List.map_id']
    rw [gdprUpdateMs_cons]
    have hdb : (⟨db.tracks,
        db.history.map
          (fun r =>
            if r.played_at == t.played_at && r.ms_played == none
            then { r with ms_played := some t.ms_played } else r)⟩ : DB) = db := by
      obtain ⟨tr, hi⟩ := db
      simp only at hstep ⊢
      rw [hstep]
    rw [hdb]
    exact ih (fun t2 ht2 => h t2 (by simp [ht2]))

/-- C6: the bulk import never regresses an already-set duration — every
history row whose `ms_played` is non-null survives `insert_from_gdpr_json`
unchanged (its guarded UPDATE only fills rows that are currently NULL) — and
re-importing the same export file a second time returns the stored state
unchanged. -/
theorem gdpr_import_non_regression (db : DB) (entries : List GdprEntry) (db' : DB)
    (h : insert_from_gdpr_json db entries = .ok db') :
    (∀ r ∈ db.history, r.ms_played.isSome = true → r ∈ db'.history) ∧
      insert_from_gdpr_json db' entries = .ok db' := by
  rw [insert_from_gdpr_json] at h
  cases h2 : gdprInsertHistory (gdprInsertPlaceholders db (gdprNormalize entries))
      (gdprNormalize entries) with
  | error e => rw [h2] at h; cases h
  | ok db2 =>
    rw [h2] at h
    cases h
    obtain ⟨htr2, ⟨tl2, htl2⟩, hall2⟩ := gdprInsertHistory_ok h2
    constructor
    · intro r hr hs
      have hr1 : r ∈ (gdprInsertPlaceholders db (gdprNormalize entries)).history := by
        rw [gdprInsertPlaceholders_history]
        exact hr
      have hr2 : r ∈ db2.history := by
        rw [htl2]
        exact List.mem_append_left _ hr1
      exact gdprUpdateMs_mem_of_isSome hr2 hs _
    · have htracks : (gdprUpdateMs db2 (gdprNormalize entries)).tracks =
          (gdprInsertPlaceholders db (gdprNormalize entries)).tracks := by
        rw [gdprUpdateMs_tracks, htr2]
      have hpres : ∀ t ∈ gdprNormalize entries,
          (((gdprUpdateMs db2 (gdprNormalize entries)).tracks).lookup t.track_id).isSome
            = true := by
        intro t ht
        rw [htracks]
        exact gdprInsertPlaceholders_all_present db (gdprNormalize entries) t ht
      have hdup : ∀ t ∈ gdprNormalize entries,
          hasPlayedAt (gdprUpdateMs db2 (gdprNormalize entries)) t.played_at = true := by
        intro t ht
        rw [gdprUpdateMs_hasPlayedAt]
        exact hall2 t ht
      have hsome : ∀ t ∈ gdprNormalize entries,
          AllSomeAt (gdprUpdateMs db2 (gdprNormalize entries)) t.played_at :=
        gdprUpdateMs_allSomeAt db2 (gdprNormalize entries)
      rw [insert_from_gdpr_json,
        gdprInsertPlaceholders_of_all_present hpres,
        gdprInsertHistory_of_all_dup hdup]
      exact congrArg Except.ok (gdprUpdateMs_of_allSome hsome)

/-- Witness for C6: importing one export record into an empty store, then
importing the same list again, returns the stored state unchanged. -/
theorem gdpr_import_non_regression_witness :
    insert_from_gdpr_json
        ⟨[(gdprTrackId "spotify:track:a", none)],
         [⟨5, gdprTrackId "spotify:track:a", some 100⟩]⟩
        [⟨some 5, some 100, some "spotify:track:a"⟩] =
      .ok ⟨[(gdprTrackId "spotify:track:a", none)],
         [⟨5, gdprTrackId "spotify:track:a", some 100⟩]⟩ :=
  (gdpr_import_non_regression ⟨[], []⟩ [⟨some 5, some 100, some "spotify:track:a"⟩]
      ⟨[(gdprTrackId "spotify:track:a", none)],
       [⟨5, gdprTrackId "spotify:track:a", some 100⟩]⟩
      (by simp [insert_from_gdpr_json, gdprNormalize, gdprInsertPlaceholders,
        gdprInsertHistory, gdprUpdateMs, insert_track, insert_history_item,
        hasPlayedAt, List.lookup_cons])).2

/-- Witness for C10 at a concrete store with a single scanned row (no
non-final row at all, so no bad row): the precondition holds and
`backfill_ms_played` returns normally. -/
theorem backfill_error_iff_bad_row_witness :
    ∃ out, backfill_ms_played ⟨[("a", some ⟨some 1000⟩)], [⟨3, "a", none⟩]⟩ 0 = .ok out :=
  (backfill_error_iff_bad_row ⟨[("a", some ⟨some 1000⟩)], [⟨3, "a", none⟩]⟩ 0).2
    (by
      rintro ⟨i, hi, -, -⟩
      have hlen : (scanRows ⟨[("a", some ⟨some 1000⟩)], [⟨3, "a", none⟩]⟩ 0).length = 1 := by
        decide
      rw [hlen] at hi
      omega)

end SpotifyBackup
